import Mathlib

/-!
Shallow embedding of the response-formatting pipeline of the RAG chatbot
frontend (`src/components/ChatInterface.tsx`): the functions `parseMarkdown`,
`processBoldAndCitations` and `processCitations`.  The original code builds
React elements; following the data-first model of the specification we
record, for each input line, a typed `Block` holding a sequence of
`Span`s — exactly the information the original element tree carries.

JavaScript regular-expression semantics are embedded by hand.  Each scanner
below is annotated with the regex it implements; where a greedy or lazy
quantifier's backtracking is forced (the character class of the quantifier
is disjoint from the character required next), the scanner commits to the
forced choice directly.
-/

namespace RagChat

/-- JS `\s` / `String.prototype.trim` whitespace set. -/
def isWS (c : Char) : Bool :=
  let n := c.toNat
  n = 0x20 || (0x9 ≤ n && n ≤ 0xD) || n = 0xA0 || n = 0x1680 ||
  (0x2000 ≤ n && n ≤ 0x200A) || n = 0x2028 || n = 0x2029 ||
  n = 0x202F || n = 0x205F || n = 0x3000 || n = 0xFEFF

/-- JS `.` (dot, no `s` flag) matches everything except line terminators. -/
def isDot (c : Char) : Bool :=
  !(c.toNat = 0xA || c.toNat = 0xD || c.toNat = 0x2028 || c.toNat = 0x2029)

/-- The bullet-marker character class `[\*\•\-]` of the source regexes. -/
def isBullet (c : Char) : Bool :=
  c = '*' || c = '•' || c = '-'

/-- `parseInt` on a non-empty decimal digit string. -/
def digitsToNat (ds : List Char) : Nat :=
  ds.foldl (fun n c => n * 10 + (c.toNat - 48)) 0

/-- Both-ends whitespace strip on a character list (JS `trim`). -/
def trimChars (cs : List Char) : List Char :=
  ((cs.dropWhile isWS).reverse.dropWhile isWS).reverse

/-- JS `String.prototype.trim`. -/
def trim (s : String) : String :=
  String.mk (trimChars s.data)

/-- JS `text.split('\n')`: one segment per line, terminators removed,
    including a final (possibly empty) segment. -/
def splitLines : List Char → List (List Char)
  | [] => [[]]
  | c :: cs =>
    if c = '\n' then [] :: splitLines cs
    else
      match splitLines cs with
      | [] => [[c]]
      | l :: ls => (c :: l) :: ls

/-- Inline span: the typed content the original code renders per fragment.
    The source's plain string parts are `Text`, `<strong>` parts are `Bold`
    (with the optional captured colon folded in, as the source interpolates
    `{boldText}{colon}`), and citation badges are `Citation` with the parsed
    integer (`parseInt(match[1])`). -/
inductive Span where
  | Text (s : String)
  | Bold (s : String)
  | Citation (n : Nat)
  deriving DecidableEq, Repr

/-- Block: one line's rendering unit, mirroring the branch taken by the
    source's `if`/`else if` chain over the trimmed line. -/
inductive Block where
  | Spacer
  | BulletHeader (spans : List Span)
  | NestedNumberedItem (num : Nat) (spans : List Span)
  | BulletItem (spans : List Span)
  | PlusBulletItem (spans : List Span)
  | NumberedItem (label : String) (spans : List Span)
  | Header (spans : List Span)
  | Paragraph (spans : List Span)
  deriving DecidableEq, Repr

def Span.isBoldSpan : Span → Bool
  | .Bold _ => true
  | _ => false

def Span.isCitationSpan : Span → Bool
  | .Citation _ => true
  | _ => false

def Block.isSpacer : Block → Bool
  | .Spacer => true
  | _ => false

def Block.isBulletHeaderBlock : Block → Bool
  | .BulletHeader _ => true
  | _ => false

def Block.isNestedItem : Block → Bool
  | .NestedNumberedItem _ _ => true
  | _ => false

/-! ### CitationExtractor (`processCitations`, regex `\[(\d+)\]`) -/

/-- One attempt of `\[(\d+)\]` anchored at the position whose first
    character is `c`.  `\d+` is greedy and `]` is not a digit, so the digit
    run is forced maximal. -/
def tryCiteAt (c : Char) (rest : List Char) : Option (Nat × List Char) :=
  if c = '[' then
    let ds := rest.takeWhile Char.isDigit
    if ds.isEmpty then none
    else
      match rest.dropWhile Char.isDigit with
      | ']' :: r2 => some (digitsToNat ds, r2)
      | _ => none
  else none

/-- Leftmost match of `\[(\d+)\]` (what `regex.exec` finds): the text before
    the match, the parsed integer, and the text after the match. -/
def findCite : List Char → Option (List Char × Nat × List Char)
  | [] => none
  | c :: rest =>
    match tryCiteAt c rest with
    | some (n, r) => some ([], n, r)
    | none => (findCite rest).map fun q => (c :: q.1, q.2)

/-- The `while ((match = citationRegex.exec(text)) !== null)` loop of
    `processCitations`, producing the `parts` array: text before each match
    (only when non-empty), a citation per match, and the trailing remainder
    (only when non-empty).  Fuel is the character count; each match consumes
    at least three characters so the fuel never runs out on the initial call. -/
def citeScanFuel : Nat → List Char → List Span
  | _, [] => []
  | 0, cs => [Span.Text (String.mk cs)]
  | fuel + 1, cs =>
    match findCite cs with
    | none => [Span.Text (String.mk cs)]
    | some (before, n, rest) =>
      (if before.isEmpty then [] else [Span.Text (String.mk before)]) ++
        Span.Citation n :: citeScanFuel fuel rest

/-- `processCitations` on a character list, including its final
    `parts.length > 1 ? parts : text` step.  The JS string return value is
    observed by the caller as a single plain part, modelled as one `Text`
    span. -/
def citeSpans (cs : List Char) : List Span :=
  let parts := citeScanFuel cs.length cs
  if parts.length > 1 then parts else [Span.Text (String.mk cs)]

/-- `processCitations` of the source (the `keyOffset` parameter only feeds
    React keys and carries no semantic content). -/
def processCitations (text : String) : List Span :=
  citeSpans text.data

/-! ### InlineSpanTokenizer (`processBoldAndCitations`,
     regex `\*\*(.*?)\*\*(:?)` ) -/

/-- Scan for the closing `\*\*` of a lazy `(.*?)\*\*`: the nearest adjacent
    star pair reachable through `.`-matchable characters.  Returns the
    captured content and the characters after the closing pair. -/
def findClose : List Char → Option (List Char × List Char)
  | [] => none
  | c :: rest =>
    match c, rest with
    | '*', '*' :: r2 => some ([], r2)
    | _, _ =>
      if isDot c then (findClose rest).map fun p => (c :: p.1, p.2)
      else none

/-- One attempt of `\*\*(.*?)\*\*(:?)` anchored at the position whose first
    character is `c`: requires the opening pair here, then a closing pair,
    then greedily takes one `:` if present.  Returns content, colon flag and
    the rest. -/
def tryBoldAt (c : Char) (rest : List Char) : Option (List Char × Bool × List Char) :=
  match c, rest with
  | '*', '*' :: r2 =>
    match findClose r2 with
    | some (content, r3) =>
      match r3 with
      | ':' :: r4 => some (content, true, r4)
      | _ => some (content, false, r3)
    | none => none
  | _, _ => none

/-- Leftmost full match of `\*\*(.*?)\*\*(:?)`: before-text, bold content,
    colon flag, rest. -/
def findBoldMatch : List Char → Option (List Char × List Char × Bool × List Char)
  | [] => none
  | c :: rest =>
    match tryBoldAt c rest with
    | some (content, colon, r) => some ([], content, colon, r)
    | none => (findBoldMatch rest).map fun q => (c :: q.1, q.2)

/-- An opening bold delimiter (some adjacent `**` pair) occurs somewhere in
    the text. -/
def hasStarPair : List Char → Bool
  | '*' :: '*' :: _ => true
  | _ :: rest => hasStarPair rest
  | [] => false

/-- The `while ((match = boldRegex.exec(text)) !== null)` loop of
    `processBoldAndCitations`: before-text (when non-empty) goes through the
    citation pass, each bold match becomes a `Bold` span with the colon
    folded in, and the trailing remainder (when non-empty) goes through the
    citation pass. -/
def boldScanFuel : Nat → List Char → List Span
  | _, [] => []
  | 0, cs => citeSpans cs
  | fuel + 1, cs =>
    match findBoldMatch cs with
    | none => citeSpans cs
    | some (before, content, colon, rest) =>
      (if before.isEmpty then [] else citeSpans before) ++
        Span.Bold (String.mk (content ++ if colon then [':'] else [])) ::
          boldScanFuel fuel rest

/-- `processBoldAndCitations` of the source, including its final
    `parts.length > 0 ? parts : text` step (again the string return is one
    plain part). -/
def processBoldAndCitations (text : String) : List Span :=
  let parts := boldScanFuel text.data.length text.data
  if parts.isEmpty then [Span.Text text] else parts

/-! ### LineClassifier (`parseMarkdown` branch conditions)

Each `ruleNMatch` embeds the `trimmedLine.match(...)` test of the
corresponding branch, each `stripN` the `trimmedLine.replace(..., '')` that
computes the branch's content. -/

/-- Branch 1 test, `^[\*\•\-]\s*\*\*.*\*\*:?`: bullet, all following
    whitespace (`\s*` is forced maximal because `*` is not whitespace), a
    literal `**`, then `.*\*\*` demands a later adjacent star pair reachable
    through `.`-matchable characters (`:?` imposes nothing). -/
def closePairExists : List Char → Bool
  | '*' :: '*' :: _ => true
  | c :: rest => isDot c && closePairExists rest
  | [] => false

def rule1Match (t : String) : Bool :=
  match t.data with
  | c :: rest =>
    isBullet c &&
      (match rest.dropWhile isWS with
       | '*' :: '*' :: r2 => closePairExists r2
       | _ => false)
  | [] => false

/-- Branch 2 test, `^[\*\•\-]\s+[\*\•\-]`: bullet, at least one whitespace
    character (forced maximal: bullets are not whitespace), bullet. -/
def rule2Match (t : String) : Bool :=
  match t.data with
  | c :: rest =>
    isBullet c && !(rest.takeWhile isWS).isEmpty &&
      (match rest.dropWhile isWS with
       | d :: _ => isBullet d
       | [] => false)
  | [] => false

/-- Branch 3 test, `^[\*\•\-]\s`. -/
def rule3Match (t : String) : Bool :=
  match t.data with
  | c :: d :: _ => isBullet c && isWS d
  | _ => false

/-- Branch 4 test, `^\+\s`. -/
def rule4Match (t : String) : Bool :=
  match t.data with
  | '+' :: d :: _ => isWS d
  | _ => false

/-- Branch 5 test, `^\d+\.\s` (`\d+` forced maximal: `.` is not a digit). -/
def rule5Match (t : String) : Bool :=
  !(t.data.takeWhile Char.isDigit).isEmpty &&
    (match t.data.dropWhile Char.isDigit with
     | '.' :: d :: _ => isWS d
     | _ => false)

/-- Branch 6 test, `^\*\*.*\*\*:?\s*$`: after the remainder of the line is
    split at a closing star pair, the tail must be an optional colon followed
    by whitespace up to the end. -/
def rule6Tail (cs : List Char) : Bool :=
  cs.all isWS ||
    (match cs with
     | ':' :: r => r.all isWS
     | _ => false)

def rule6Scan : List Char → Bool
  | '*' :: '*' :: rest => rule6Tail rest || (isDot '*' && rule6Scan ('*' :: rest))
  | c :: rest => isDot c && rule6Scan rest
  | [] => false

def rule6Match (t : String) : Bool :=
  match t.data with
  | '*' :: '*' :: rest => rule6Scan rest
  | _ => false

/-- `replace(/^[\*\•\-]\s*/, '')` (content of branches 1 and 3). -/
def strip1 (t : String) : String :=
  match t.data with
  | c :: rest => if isBullet c then String.mk (rest.dropWhile isWS) else t
  | [] => t

/-- `replace(/^[\*\•\-]\s+[\*\•\-]\s*/, '')` (content of branch 2). -/
def strip2 (t : String) : String :=
  match t.data with
  | c :: rest =>
    if isBullet c && !(rest.takeWhile isWS).isEmpty then
      match rest.dropWhile isWS with
      | d :: r2 => if isBullet d then String.mk (r2.dropWhile isWS) else t
      | [] => t
    else t
  | [] => t

/-- `replace(/^\+\s*/, '')` (content of branch 4). -/
def strip4 (t : String) : String :=
  match t.data with
  | '+' :: rest => String.mk (rest.dropWhile isWS)
  | _ => t

/-- `replace(/^\d+\.\s*/, '')` (content of branch 5). -/
def strip5 (t : String) : String :=
  if (t.data.takeWhile Char.isDigit).isEmpty then t
  else
    match t.data.dropWhile Char.isDigit with
    | '.' :: r2 => String.mk (r2.dropWhile isWS)
    | _ => t

/-- `match(/^(\d+)\./)?.[1] || '1'`, restricted to branch 5 where the match
    succeeds: the literal leading digit run. -/
def numLabel (t : String) : String :=
  String.mk (t.data.takeWhile Char.isDigit)

/-! ### DocumentAssembler (`parseMarkdown`) -/

/-- The body of the source's `lines.forEach` callback for one trimmed line:
    the block pushed and the value of `nestedCounter` after the iteration. -/
def classifyTrimmed (counter : Nat) (t : String) : Block × Nat :=
  if t = "" then (Block.Spacer, counter)
  else if rule1Match t then
    (Block.BulletHeader (processBoldAndCitations (strip1 t)), 0)
  else if rule2Match t then
    (Block.NestedNumberedItem (counter + 1) (processBoldAndCitations (strip2 t)), counter + 1)
  else if rule3Match t then
    (Block.BulletItem (processBoldAndCitations (strip1 t)), counter)
  else if rule4Match t then
    (Block.PlusBulletItem (processBoldAndCitations (strip4 t)), counter)
  else if rule5Match t then
    (Block.NumberedItem (numLabel t) (processBoldAndCitations (strip5 t)), counter)
  else if rule6Match t then
    (Block.Header (processBoldAndCitations t), counter)
  else
    (Block.Paragraph (processBoldAndCitations t), counter)

/-- One iteration over a raw line (`const trimmedLine = line.trim()`). -/
def processLine (counter : Nat) (line : String) : Block × Nat :=
  classifyTrimmed counter (trim line)

/-- The `forEach` loop threading `nestedCounter` across the lines. -/
def parseGo (counter : Nat) : List (List Char) → List Block
  | [] => []
  | l :: ls =>
    (processLine counter (String.mk l)).1 ::
      parseGo (processLine counter (String.mk l)).2 ls

/-- `parseMarkdown`.  The source's `if (!text) return text;` guard means the
    empty string is returned unchanged, i.e. nothing is rendered: an empty
    block sequence. -/
def parseMarkdown (text : String) : List Block :=
  if text = "" then [] else parseGo 0 (splitLines text.data)

/-- The display numbers of the nested items of a document, in order. -/
def nestedNums (blocks : List Block) : List Nat :=
  blocks.filterMap fun b =>
    match b with
    | Block.NestedNumberedItem n _ => some n
    | _ => none

/-! ### Helper lemmas -/

theorem mk_eq_empty_iff (l : List Char) : String.mk l = "" ↔ l = [] := by
  constructor
  · intro h
    have h2 := congrArg String.data h
    simpa using h2
  · intro h
    rw [h]

theorem trim_mk_eq_empty_iff (l : List Char) : trim (String.mk l) = "" ↔ trimChars l = [] := by
  rw [trim]
  exact mk_eq_empty_iff _

theorem dropWhile_of_all {p : Char → Bool} {l : List Char} (h : l.all p) :
    l.dropWhile p = [] := by
  induction l with
  | nil => rfl
  | cons c cs ih => simp_all [List.dropWhile_cons, List.all_cons]

theorem trimChars_of_all {l : List Char} (h : l.all isWS) : trimChars l = [] := by
  rw [trimChars, dropWhile_of_all h]
  rfl

theorem splitLines_ne_nil (cs : List Char) : splitLines cs ≠ [] := by
  induction cs with
  | nil => simp [splitLines]
  | cons c cs ih =>
    rw [splitLines]
    split_ifs
    · simp
    · cases h : splitLines cs with
      | nil => exact absurd h ih
      | cons l ls => simp [h]

theorem splitLines_all {p : Char → Bool} :
    ∀ {cs : List Char}, cs.all p → ∀ l ∈ splitLines cs, l.all p := by
  intro cs
  induction cs with
  | nil =>
    intro _ l hl
    simp [splitLines] at hl
    simp [hl]
  | cons c cs ih =>
    intro hall l hl
    rw [List.all_cons, Bool.and_eq_true] at hall
    rw [splitLines] at hl
    split_ifs at hl
    · rcases List.mem_cons.mp hl with h | h
      · simp [h]
      · exact ih hall.2 l h
    · cases hsp : splitLines cs with
      | nil => exact absurd hsp (splitLines_ne_nil cs)
      | cons l0 ls =>
        rw [hsp] at hl
        rcases List.mem_cons.mp hl with h | h
        · subst h
          rw [List.all_cons, Bool.and_eq_true]
          refine ⟨hall.1, ?_⟩
          exact ih hall.2 l0 (by rw [hsp]; exact List.mem_cons_self _ _)
        · exact ih hall.2 l (by rw [hsp]; exact List.mem_cons_of_mem _ h)

theorem classifyTrimmed_fst_spacer_iff (counter : Nat) (t : String) :
    (classifyTrimmed counter t).1 = Block.Spacer ↔ t = "" := by
  rw [classifyTrimmed]
  split_ifs <;> simp_all

theorem classifyTrimmed_blank (counter : Nat) {t : String} (h : t = "") :
    classifyTrimmed counter t = (Block.Spacer, counter) := by
  rw [classifyTrimmed, if_pos h]

theorem parseGo_length (lines : List (List Char)) :
    ∀ counter, (parseGo counter lines).length = lines.length := by
  induction lines with
  | nil => intro counter; rfl
  | cons l ls ih => intro counter; simp [parseGo, ih]

theorem parseGo_spacer_iff (lines : List (List Char)) :
    ∀ (counter i : Nat), ((parseGo counter lines)[i]? = some Block.Spacer ↔
      ∃ l, lines[i]? = some l ∧ trimChars l = []) := by
  induction lines with
  | nil => intro counter i; simp [parseGo]
  | cons l ls ih =>
    intro counter i
    cases i with
    | zero =>
      simp only [parseGo, List.getElem?_cons_zero, Option.some.injEq]
      rw [processLine, classifyTrimmed_fst_spacer_iff, trim_mk_eq_empty_iff]
      constructor
      · intro h; exact ⟨l, rfl, h⟩
      · rintro ⟨l', hl', h⟩
        cases hl'
        exact h
    | succ n =>
      simp only [parseGo, List.getElem?_cons_succ]
      exact ih _ n

theorem parseGo_of_blank (lines : List (List Char)) :
    ∀ counter, (∀ l ∈ lines, trimChars l = []) →
      parseGo counter lines = List.replicate lines.length Block.Spacer := by
  induction lines with
  | nil => intro counter _; rfl
  | cons l ls ih =>
    intro counter h
    have hl : trimChars l = [] := h l (List.mem_cons_self _ _)
    have hb : processLine counter (String.mk l) = (Block.Spacer, counter) :=
      classifyTrimmed_blank counter ((trim_mk_eq_empty_iff l).mpr hl)
    simp only [parseGo, hb, List.length_cons, List.replicate_succ]
    exact congrArg _ (ih counter fun x hx => h x (List.mem_cons_of_mem _ hx))

/-! ### Claim C1 -/

/-- C1 counterexample: the source's `if (!text) return text;` guard means the
    empty input produces no blocks at all, while splitting the empty string
    on line terminators produces one (empty) line, so the block count does
    not equal the line count there. -/
theorem c1_counterexample :
    parseMarkdown "" = [] ∧ (splitLines ("" : String).data).length = 1 ∧
      ¬(parseMarkdown "").length = (splitLines ("" : String).data).length := by
  refine ⟨rfl, rfl, ?_⟩
  decide

/-- C1 (amended to nonempty inputs): for every nonempty input string the
    document has exactly one block per line segment obtained by splitting on
    line terminators, in input order, and the block at an index is a `Spacer`
    precisely when the line at that index is blank after trimming; no line is
    dropped. -/
theorem c1_one_block_per_line (text : String) (h : text ≠ "") :
    (parseMarkdown text).length = (splitLines text.data).length ∧
      ∀ i : Nat, ((parseMarkdown text)[i]? = some Block.Spacer ↔
        ∃ l, (splitLines text.data)[i]? = some l ∧ trimChars l = []) := by
  rw [parseMarkdown, if_neg h]
  exact ⟨parseGo_length _ 0, fun i => parseGo_spacer_iff _ 0 i⟩

/-- C1 witness: a concrete three-line input with a blank middle line. -/
theorem c1_one_block_per_line_witness :
    ("a\n\nb" : String) ≠ "" ∧
      (parseMarkdown "a\n\nb").length = (splitLines ("a\n\nb" : String).data).length :=
  ⟨by decide, (c1_one_block_per_line "a\n\nb" (by decide)).1⟩

/-! ### Claim C5 -/

/-- C5 counterexample: the input of two newline characters splits into three
    empty segments and hence yields three `Spacer` blocks, not two. -/
theorem c5_counterexample :
    parseMarkdown "\n\n" = [Block.Spacer, Block.Spacer, Block.Spacer] ∧
      ¬(parseMarkdown "\n\n").length = 2 := by
  refine ⟨rfl, ?_⟩
  decide

/-- C5 (amended): the empty input yields the empty block sequence; every
    nonempty pure-whitespace input yields only `Spacer` blocks, one per line
    segment; and the two-newline input yields exactly three `Spacer` blocks,
    because splitting on the two terminators produces three empty segments. -/
theorem c5_whitespace_spacers :
    (parseMarkdown "" = []) ∧
      (∀ text : String, text ≠ "" → text.data.all isWS = true →
        parseMarkdown text = List.replicate (splitLines text.data).length Block.Spacer) ∧
      parseMarkdown "\n\n" = List.replicate 3 Block.Spacer := by
  refine ⟨rfl, ?_, rfl⟩
  intro text hne hws
  rw [parseMarkdown, if_neg hne]
  rw [parseGo_of_blank]
  intro l hl
  exact trimChars_of_all (splitLines_all hws l hl)

/-- C5 witness: a concrete two-line pure-whitespace input. -/
theorem c5_whitespace_spacers_witness :
    parseMarkdown "  \n \t " = List.replicate (splitLines ("  \n \t " : String).data).length Block.Spacer :=
  c5_whitespace_spacers.2.1 "  \n \t " (by decide) (by decide)

/-! ### Claim C3 -/

/-- C3: within one parse the register (`nestedCounter`) is set to 0 by every
    line that produces a `BulletHeader`, is incremented by 1 by every line
    that produces a `NestedNumberedItem` — whose display number is exactly
    the incremented value — and is left unchanged by every other line; on
    the concrete two-group input both nested lines display number 1. -/
theorem c3_numbering_register :
    (∀ (counter : Nat) (line : String) (s : List Span),
        (processLine counter line).1 = Block.BulletHeader s →
          (processLine counter line).2 = 0) ∧
    (∀ (counter : Nat) (line : String) (n : Nat) (s : List Span),
        (processLine counter line).1 = Block.NestedNumberedItem n s →
          n = counter + 1 ∧ (processLine counter line).2 = counter + 1) ∧
    (∀ (counter : Nat) (line : String),
        (processLine counter line).1.isBulletHeaderBlock = false →
        (processLine counter line).1.isNestedItem = false →
        (processLine counter line).2 = counter) ∧
    nestedNums (parseMarkdown "* **A**:\n* * x\n* **B**:\n* * y") = [1, 1] := by
  refine ⟨?_, ?_, ?_, by decide⟩
  · intro counter line s h
    simp only [processLine, classifyTrimmed] at h ⊢
    split_ifs at h ⊢ <;> simp_all
  · intro counter line n s h
    simp only [processLine, classifyTrimmed] at h ⊢
    split_ifs at h ⊢ <;> simp_all
  · intro counter line h1 h2
    simp only [processLine, classifyTrimmed] at h1 h2 ⊢
    split_ifs at h1 h2 ⊢ <;>
      simp_all [Block.isBulletHeaderBlock, Block.isNestedItem]

/-- C3 witness: a nested line after a fresh header, at register value 0. -/
theorem c3_numbering_register_witness :
    1 = 0 + 1 ∧ (processLine 0 "* * x").2 = 0 + 1 :=
  c3_numbering_register.2.1 0 "* * x" 1 [Span.Text "x"] (by decide)

/-! ### Claim C9 -/

/-- C9: the parser is total — every string yields a document with one block
    per split segment (and none for the empty string, which the source
    returns unchanged) — and any non-blank line matching none of the six
    patterns falls through to `Paragraph` carrying the trimmed line, leaving
    the register untouched; there is no failure outcome. -/
theorem c9_total_paragraph_fallthrough :
    (∀ text : String,
        (parseMarkdown text).length =
          if text = "" then 0 else (splitLines text.data).length) ∧
    (∀ (counter : Nat) (line : String),
        trim line ≠ "" → rule1Match (trim line) = false →
        rule2Match (trim line) = false → rule3Match (trim line) = false →
        rule4Match (trim line) = false → rule5Match (trim line) = false →
        rule6Match (trim line) = false →
        processLine counter line =
          (Block.Paragraph (processBoldAndCitations (trim line)), counter)) := by
  constructor
  · intro text
    rw [parseMarkdown]
    split_ifs with h
    · rfl
    · exact parseGo_length _ 0
  · intro counter line h0 h1 h2 h3 h4 h5 h6
    simp [processLine, classifyTrimmed, h0, h1, h2, h3, h4, h5, h6]

/-- C9 witness: an ordinary prose line falls through to `Paragraph`. -/
theorem c9_total_paragraph_fallthrough_witness :
    processLine 0 "just text" =
      (Block.Paragraph (processBoldAndCitations (trim "just text")), 0) :=
  c9_total_paragraph_fallthrough.2 0 "just text" (by decide) (by decide)
    (by decide) (by decide) (by decide) (by decide) (by decide)

/-! ### Claim C6 -/

/-- C6: the line `* **Direct Answer**: Paris` is one `BulletHeader` whose
    spans are `[Bold "Direct Answer:", Text " Paris"]` — the colon after the
    closing delimiter is folded into the bold span — and producing it resets
    the register to 0 whatever its previous value. -/
theorem c6_bullet_header_example :
    ∀ counter : Nat,
      processLine counter "* **Direct Answer**: Paris" =
        (Block.BulletHeader [Span.Bold "Direct Answer:", Span.Text " Paris"], 0) :=
  fun _ => rfl

/-! ### Claim C10 -/

/-- C10: no whitespace is needed between the bullet marker and the bold
    span: any trimmed line consisting of a bullet character directly
    followed by `**` with a later closing `**` reachable by `.` characters
    classifies as `BulletHeader` and resets the register, as on the concrete
    line `***Direct Answer**:`. -/
theorem c10_bullet_header_no_space :
    (∀ (counter : Nat) (line : String) (c : Char) (rest : List Char),
        (trim line).data = c :: '*' :: '*' :: rest → isBullet c = true →
        closePairExists rest = true →
        (processLine counter line).1.isBulletHeaderBlock = true ∧
          (processLine counter line).2 = 0) ∧
    (∀ counter : Nat,
        processLine counter "***Direct Answer**:" =
          (Block.BulletHeader [Span.Bold "Direct Answer:"], 0)) := by
  constructor
  · intro counter line c rest hdata hb hcp
    have hne : trim line ≠ "" := by
      intro h
      rw [h] at hdata
      exact absurd hdata (by simp)
    have hdw : List.dropWhile isWS ('*' :: '*' :: rest) = '*' :: '*' :: rest := by
      rw [List.dropWhile_cons, if_neg (by decide : ¬isWS '*' = true)]
    have h1 : rule1Match (trim line) = true := by
      simp only [rule1Match, hdata, hdw]
      simp [hb, hcp]
    rw [processLine, classifyTrimmed, if_neg hne, if_pos h1]
    exact ⟨rfl, rfl⟩
  · intro counter
    rfl

/-- C10 witness: the concrete no-whitespace line. -/
theorem c10_bullet_header_no_space_witness :
    (processLine 0 "***Direct Answer**:").1.isBulletHeaderBlock = true ∧
      (processLine 0 "***Direct Answer**:").2 = 0 :=
  c10_bullet_header_no_space.1 0 "***Direct Answer**:" '*'
    ("Direct Answer**:" : String).data (by decide) (by decide) (by decide)

/-! ### Lemmas about the citation scanner -/

theorem citeScanFuel_no_bold :
    ∀ (fuel : Nat) (cs : List Char) (s : Span),
      s ∈ citeScanFuel fuel cs → s.isBoldSpan = false := by
  intro fuel
  induction fuel with
  | zero =>
    intro cs s hs
    cases cs with
    | nil => simp [citeScanFuel] at hs
    | cons c cs =>
      simp [citeScanFuel] at hs
      simp [hs, Span.isBoldSpan]
  | succ f ih =>
    intro cs s hs
    cases cs with
    | nil => simp [citeScanFuel] at hs
    | cons c cs =>
      simp only [citeScanFuel] at hs
      cases hfc : findCite (c :: cs) with
      | none =>
        rw [hfc] at hs
        simp at hs
        simp [hs, Span.isBoldSpan]
      | some q =>
        obtain ⟨before, n, rest⟩ := q
        rw [hfc] at hs
        simp only [] at hs
        rcases List.mem_append.mp hs with h | h
        · split_ifs at h
          · simp at h
          · simp at h
            simp [h, Span.isBoldSpan]
        · rcases List.mem_cons.mp h with h | h
          · simp [h, Span.isBoldSpan]
          · exact ih rest s h

theorem citeSpans_no_bold (cs : List Char) :
    ∀ s ∈ citeSpans cs, s.isBoldSpan = false := by
  intro s hs
  simp only [citeSpans] at hs
  split_ifs at hs
  · exact citeScanFuel_no_bold _ _ s hs
  · simp at hs
    simp [hs, Span.isBoldSpan]

theorem citeSpans_ne_nil (cs : List Char) : citeSpans cs ≠ [] := by
  simp only [citeSpans]
  split_ifs with h
  · intro hc
    rw [hc] at h
    simp at h
  · simp

/-! ### Claim C4 -/

/-- C4: when the bold regex finds no complete match (in particular when an
    opening `**` has no closing pair), the tokenizer treats the entire
    content as plain text for the citation pass — no bold span is produced
    and nothing is thrown away — and the concrete line `Unclosed **bold`
    yields exactly one `Text` span. -/
theorem c4_unclosed_bold :
    (∀ text : String, hasStarPair text.data = true →
        findBoldMatch text.data = none →
        processBoldAndCitations text = citeSpans text.data ∧
          ∀ s ∈ processBoldAndCitations text, s.isBoldSpan = false) ∧
    processBoldAndCitations "Unclosed **bold" = [Span.Text "Unclosed **bold"] := by
  constructor
  · intro text hsp hnone
    have hmain : processBoldAndCitations text = citeSpans text.data := by
      cases hd : text.data with
      | nil =>
        rw [hd] at hsp
        simp [hasStarPair] at hsp
      | cons c cs =>
        rw [hd] at hnone
        have hbs : boldScanFuel (cs.length + 1) (c :: cs) = citeSpans (c :: cs) := by
          simp only [boldScanFuel, hnone]
        simp only [processBoldAndCitations, hd, List.length_cons, hbs]
        rw [if_neg]
        simp [citeSpans_ne_nil]
    refine ⟨hmain, ?_⟩
    rw [hmain]
    exact citeSpans_no_bold _
  · decide

/-- C4 witness: the concrete unterminated-bold line. -/
theorem c4_unclosed_bold_witness :
    processBoldAndCitations "Unclosed **bold" = citeSpans ("Unclosed **bold" : String).data :=
  (c4_unclosed_bold.1 "Unclosed **bold" (by decide) (by decide)).1

/-! ### Lemmas about `findCite` -/

theorem all_takeWhile (p : Char → Bool) (l : List Char) :
    (l.takeWhile p).all p = true := by
  induction l with
  | nil => rfl
  | cons c cs ih =>
    rw [List.takeWhile_cons]
    split_ifs with h
    · simp [h, ih]
    · rfl

theorem takeWhile_append_all {p : Char → Bool} {w : List Char} (x : Char)
    (r : List Char) (hw : w.all p = true) (hx : p x = false) :
    (w ++ x :: r).takeWhile p = w ∧ (w ++ x :: r).dropWhile p = x :: r := by
  induction w with
  | nil => simp [List.takeWhile_cons, List.dropWhile_cons, hx]
  | cons a w ih =>
    rw [List.all_cons, Bool.and_eq_true] at hw
    have h2 := ih hw.2
    simp [List.takeWhile_cons, List.dropWhile_cons, hw.1, h2.1, h2.2]

theorem findCite_some_struct :
    ∀ (cs b r : List Char) (n : Nat), findCite cs = some (b, n, r) →
      ∃ ds : List Char, cs = b ++ '[' :: (ds ++ ']' :: r) ∧ ds ≠ [] ∧
        ds.all Char.isDigit = true ∧ n = digitsToNat ds := by
  intro cs
  induction cs with
  | nil => intro b r n h; simp [findCite] at h
  | cons c cs ih =>
    intro b r n h
    simp only [findCite] at h
    cases htc : tryCiteAt c cs with
    | some q =>
      obtain ⟨n0, r0⟩ := q
      rw [htc] at h
      simp only [Option.some.injEq, Prod.mk.injEq] at h
      obtain ⟨hb, hn, hr⟩ := h
      simp only [tryCiteAt] at htc
      split_ifs at htc with hc hds
      · split at htc
        · next r2 heq =>
          simp only [Option.some.injEq, Prod.mk.injEq] at htc
          refine ⟨cs.takeWhile Char.isDigit, ?_, ?_, all_takeWhile _ _, ?_⟩
          · rw [← hb, hc]
            have hsplit := List.takeWhile_append_dropWhile Char.isDigit cs
            rw [heq] at hsplit
            rw [← hr, ← htc.2]
            simpa using hsplit.symm
          · simpa using hds
          · rw [← hn]
            exact htc.1.symm
        · simp at htc
    | none =>
      rw [htc] at h
      rw [Option.map_eq_some'] at h
      obtain ⟨⟨b', n', r'⟩, hq, heq⟩ := h
      simp only [Prod.mk.injEq] at heq
      obtain ⟨ds, hcs, hne, hall, hnn⟩ := ih b' r' n' hq
      refine ⟨ds, ?_, hne, hall, ?_⟩
      · rw [← heq.1, ← heq.2.2, List.cons_append, hcs]
      · rw [← heq.2.1, hnn]

theorem findCite_none_no_match :
    ∀ cs : List Char, findCite cs = none →
      ∀ (b ds r : List Char), cs = b ++ '[' :: (ds ++ ']' :: r) → ds ≠ [] →
        ds.all Char.isDigit = true → False := by
  intro cs
  induction cs with
  | nil =>
    intro _ b ds r hcs _ _
    cases b <;> simp at hcs
  | cons c cs ih =>
    intro h b ds r hcs hne hall
    have hparts : tryCiteAt c cs = none ∧ findCite cs = none := by
      simp only [findCite] at h
      cases htc : tryCiteAt c cs with
      | some q =>
        obtain ⟨n0, r0⟩ := q
        rw [htc] at h
        simp at h
      | none =>
        rw [htc] at h
        rw [Option.map_eq_none'] at h
        exact ⟨rfl, h⟩
    cases b with
    | nil =>
      simp only [List.nil_append, List.cons.injEq] at hcs
      obtain ⟨hc, hcs2⟩ := hcs
      have hsome : tryCiteAt c cs ≠ none := by
        rw [tryCiteAt, if_pos hc]
        have hsplit := takeWhile_append_all ']' r hall
          (by decide : Char.isDigit ']' = false)
        rw [hcs2, hsplit.1, hsplit.2]
        rw [if_neg (by simpa using hne)]
        simp
      exact hsome hparts.1
    | cons c0 b' =>
      simp only [List.cons_append, List.cons.injEq] at hcs
      exact ih hparts.2 b' ds r hcs.2 hne hall

theorem findCite_length {cs b r : List Char} {n : Nat}
    (h : findCite cs = some (b, n, r)) : r.length + 3 ≤ cs.length := by
  obtain ⟨ds, hcs, hne, _, _⟩ := findCite_some_struct cs b r n h
  have hds : 0 < ds.length := List.length_pos.mpr hne
  rw [hcs]
  simp [List.length_append]
  omega

theorem citeScanFuel_congr :
    ∀ (f1 f2 : Nat) (cs : List Char), cs.length ≤ f1 → cs.length ≤ f2 →
      citeScanFuel f1 cs = citeScanFuel f2 cs := by
  intro f1
  induction f1 with
  | zero =>
    intro f2 cs h1 _
    have hnil : cs = [] := List.eq_nil_of_length_eq_zero (Nat.le_zero.mp h1)
    subst hnil
    simp [citeScanFuel]
  | succ k ih =>
    intro f2 cs h1 h2
    cases cs with
    | nil => simp [citeScanFuel]
    | cons c cs2 =>
      cases f2 with
      | zero => simp at h2
      | succ m =>
        simp only [citeScanFuel]
        cases hfc : findCite (c :: cs2) with
        | none => simp only [hfc]
        | some q =>
          obtain ⟨b, n, r⟩ := q
          have hr := findCite_length hfc
          simp only [List.length_cons] at h1 h2 hr
          simp only [hfc]
          rw [ih m r (by omega) (by omega)]

theorem citeScanFuel_ne_nil :
    ∀ (fuel : Nat) (cs : List Char), cs ≠ [] → citeScanFuel fuel cs ≠ [] := by
  intro fuel cs h
  cases cs with
  | nil => exact absurd rfl h
  | cons c cs2 =>
    cases fuel with
    | zero => simp [citeScanFuel]
    | succ k =>
      simp only [citeScanFuel]
      cases hfc : findCite (c :: cs2) with
      | none => simp
      | some q =>
        obtain ⟨b, n, r⟩ := q
        simp

theorem citeScanFuel_step :
    ∀ (fuel : Nat) (cs b r : List Char) (n : Nat), cs.length ≤ fuel →
      findCite cs = some (b, n, r) →
      citeScanFuel fuel cs =
        (if b = [] then [] else [Span.Text (String.mk b)]) ++
          Span.Citation n :: citeScanFuel r.length r := by
  intro fuel cs b r n hle hfc
  have hr := findCite_length hfc
  cases cs with
  | nil => simp at hr
  | cons c cs2 =>
    cases fuel with
    | zero => simp at hle
    | succ k =>
      simp only [citeScanFuel]
      simp only [hfc]
      simp only [List.length_cons] at hle hr
      rw [citeScanFuel_congr k r.length r (by omega) (le_refl _)]
      congr 1
      cases b <;> rfl

theorem citeScanFuel_no_match :
    ∀ (fuel : Nat) (cs : List Char), cs ≠ [] → findCite cs = none →
      citeScanFuel fuel cs = [Span.Text (String.mk cs)] := by
  intro fuel cs hne hfc
  cases cs with
  | nil => exact absurd rfl hne
  | cons c cs2 =>
    cases fuel with
    | zero => simp [citeScanFuel]
    | succ k =>
      simp only [citeScanFuel]
      simp only [hfc]

/-! ### Claim C2 -/

/-- C2 counterexample: a fragment consisting of exactly one citation marker
    and nothing else is returned as plain text (`parts.length > 1` fails, so
    the source returns the raw string), not as a `Citation` span. -/
theorem c2_counterexample :
    processCitations "[1]" = [Span.Text "[1]"] ∧
      ¬processCitations "[1]" = [Span.Citation 1] := by
  refine ⟨rfl, ?_⟩
  decide

/-- C2 (amended): universally, each left-to-right occurrence that the
    citation regex finds — `findCite cs = some (b, n, r)` says the leftmost
    occurrence has before-text `b`, digits parsing to `n` and rest `r`, as
    characterized by `findCite_some_struct` and the iff of C8 — becomes a
    `Citation n` span, with the before-text preserved verbatim as a `Text`
    span and the scan continuing identically on the rest, and a matchless
    remainder stays one verbatim `Text` span; `processCitations` returns
    exactly this full scan whenever some text surrounds the first match or
    more text follows it, while a fragment that is exactly one citation
    marker and nothing else comes back unchanged as plain text; the
    specified example yields exactly the listed span sequence. -/
theorem c2_citation_extraction :
    (∀ (fuel : Nat) (cs b r : List Char) (n : Nat), cs.length ≤ fuel →
        findCite cs = some (b, n, r) →
        citeScanFuel fuel cs =
          (if b = [] then [] else [Span.Text (String.mk b)]) ++
            Span.Citation n :: citeScanFuel r.length r) ∧
    (∀ (fuel : Nat) (cs : List Char), cs ≠ [] → findCite cs = none →
        citeScanFuel fuel cs = [Span.Text (String.mk cs)]) ∧
    (∀ (text : String) (b : List Char) (n : Nat) (r : List Char),
        findCite text.data = some (b, n, r) → b ≠ [] ∨ r ≠ [] →
        processCitations text = citeScanFuel text.data.length text.data) ∧
    (∀ (text : String) (n : Nat), findCite text.data = some ([], n, []) →
        processCitations text = [Span.Text text]) ∧
    processCitations "See [1] and [2] for details" =
      [Span.Text "See ", Span.Citation 1, Span.Text " and ", Span.Citation 2,
        Span.Text " for details"] := by
  refine ⟨citeScanFuel_step, citeScanFuel_no_match, ?_, ?_, by decide⟩
  · intro text b n r hfc hor
    rw [processCitations]
    simp only [citeSpans]
    have hstep := citeScanFuel_step text.data.length text.data b r n
      (le_refl _) hfc
    have hlen : (citeScanFuel text.data.length text.data).length > 1 := by
      rw [hstep]
      rcases hor with hb | hr
      · rw [if_neg hb]
        simp only [List.length_append, List.length_cons, List.length_singleton]
        omega
      · have hpos : 0 < (citeScanFuel r.length r).length :=
          List.length_pos.mpr (citeScanFuel_ne_nil r.length r hr)
        by_cases hb : b = []
        · rw [if_pos hb]
          simp only [List.nil_append, List.length_cons]
          omega
        · rw [if_neg hb]
          simp only [List.length_append, List.length_cons, List.length_singleton]
          omega
    rw [if_pos hlen]
  · intro text n hfc
    rw [processCitations]
    simp only [citeSpans]
    have hstep := citeScanFuel_step text.data.length text.data [] [] n
      (le_refl _) hfc
    have hlen : ¬(citeScanFuel text.data.length text.data).length > 1 := by
      rw [hstep]
      simp [citeScanFuel]
    rw [if_neg hlen]

/-- C2 witness: a fragment with text before its single marker, exercising
    the universal conjunct at concrete input. -/
theorem c2_citation_extraction_witness :
    processCitations "a [1]" =
      citeScanFuel ("a [1]" : String).data.length ("a [1]" : String).data :=
  c2_citation_extraction.2.2.1 "a [1]" ("a " : String).data 1 []
    (by decide) (Or.inl (by decide))

/-! ### Claim C8 -/

/-- C8: a fragment in which the citation regex finds no match — which holds
    exactly when the fragment has no decomposition around a bracketed
    non-empty all-digit run — comes back from `processCitations` as the
    single plain span wrapping the whole fragment (identity, no spurious
    splitting); in particular `[note]` stays plain text. -/
theorem c8_no_citation_identity :
    (∀ text : String, findCite text.data = none →
        processCitations text = [Span.Text text]) ∧
    (∀ cs : List Char, findCite cs = none ↔
        ¬∃ b ds r : List Char, cs = b ++ '[' :: (ds ++ ']' :: r) ∧ ds ≠ [] ∧
          ds.all Char.isDigit = true) ∧
    processCitations "[note]" = [Span.Text "[note]"] := by
  refine ⟨?_, ?_, by decide⟩
  · intro text h
    rw [processCitations]
    cases hd : text.data with
    | nil =>
      have htext : text = "" := by
        calc text = String.mk text.data := rfl
        _ = String.mk [] := by rw [hd]
        _ = "" := rfl
      rw [htext]
      decide
    | cons c cs =>
      rw [hd] at h
      have hcsf : citeScanFuel (cs.length + 1) (c :: cs) =
          [Span.Text (String.mk (c :: cs))] := by
        simp only [citeScanFuel, h]
      simp only [citeSpans, List.length_cons, hcsf]
      rw [if_neg (by simp)]
      rw [← hd]
  · intro cs
    constructor
    · intro h hex
      obtain ⟨b, ds, r, hcs, hne, hall⟩ := hex
      exact findCite_none_no_match cs h b ds r hcs hne hall
    · intro h
      cases hfc : findCite cs with
      | none => rfl
      | some q =>
        obtain ⟨b, n, r⟩ := q
        obtain ⟨ds, hcs, hne, hall, _⟩ := findCite_some_struct cs b r n hfc
        exact absurd ⟨b, ds, r, hcs, hne, hall⟩ h

/-- C8 witness: a concrete marker-free fragment comes back whole. -/
theorem c8_no_citation_identity_witness :
    processCitations "abc" = [Span.Text "abc"] :=
  c8_no_citation_identity.1 "abc" (by decide)

/-! ### Claim C7 -/

theorem bullet_not_ws {c : Char} (h : isBullet c = true) : isWS c = false := by
  simp only [isBullet, Bool.or_eq_true, decide_eq_true_eq] at h
  rcases h with (h | h) | h <;> subst h <;> decide

/-- C7 counterexample: `•-x` starts with a bullet marker followed
    immediately (with no whitespace) by a second bullet marker, does not
    match the BulletHeader rule, and yet classifies as `Paragraph` — the
    nested rule `^[\*\•\-]\s+[\*\•\-]` demands at least one whitespace
    character between the two markers. -/
theorem c7_counterexample :
    processLine 0 "•-x" = (Block.Paragraph [Span.Text "•-x"], 0) ∧
      (processLine 0 "•-x").1.isNestedItem = false := by
  refine ⟨rfl, ?_⟩
  decide

/-- C7 (amended): every line whose trimmed form starts with a bullet marker
    followed by at least one whitespace character and then a second bullet
    marker — the nested rule, characterized below — and which does not match
    the BulletHeader rule, classifies as `NestedNumberedItem`, increments
    the register, displays the register's new value, and carries the line
    with the two markers and the adjacent whitespace stripped. -/
theorem c7_nested_item :
    (∀ (counter : Nat) (line : String),
        rule1Match (trim line) = false → rule2Match (trim line) = true →
        processLine counter line =
          (Block.NestedNumberedItem (counter + 1)
            (processBoldAndCitations (strip2 (trim line))), counter + 1)) ∧
    (∀ t : String, rule2Match t = true ↔
        ∃ (c : Char) (w : List Char) (d : Char) (r : List Char),
          t.data = c :: (w ++ d :: r) ∧ isBullet c = true ∧ w ≠ [] ∧
            w.all isWS = true ∧ isBullet d = true) := by
  constructor
  · intro counter line h1 h2
    have hne : trim line ≠ "" := by
      intro h
      rw [h] at h2
      exact absurd h2 (by decide)
    rw [processLine, classifyTrimmed, if_neg hne, if_neg (by simp [h1]),
      if_pos h2]
  · intro t
    constructor
    · intro h
      cases hd : t.data with
      | nil => rw [rule2Match, hd] at h; simp at h
      | cons c rest =>
        rw [rule2Match, hd] at h
        simp only [Bool.and_eq_true] at h
        obtain ⟨⟨hc, hw⟩, hmatch⟩ := h
        cases hdw : rest.dropWhile isWS with
        | nil => rw [hdw] at hmatch; simp at hmatch
        | cons d r =>
          rw [hdw] at hmatch
          refine ⟨c, rest.takeWhile isWS, d, r, ?_, hc, ?_, all_takeWhile _ _, hmatch⟩
          · have hsplit := List.takeWhile_append_dropWhile isWS rest
            rw [hdw] at hsplit
            simpa using hsplit.symm
          · simpa using hw
    · rintro ⟨c, w, d, r, hd, hc, hw, hall, hdb⟩
      rw [rule2Match, hd]
      have hsplit := takeWhile_append_all d r hall (bullet_not_ws hdb)
      simp [hsplit.1, hsplit.2, hc, hdb, hw]

/-- C7 witness: a concrete marker-space-marker nested line. -/
theorem c7_nested_item_witness :
    processLine 0 "* * x" =
      (Block.NestedNumberedItem (0 + 1)
        (processBoldAndCitations (strip2 (trim "* * x"))), 0 + 1) :=
  c7_nested_item.1 0 "* * x" (by decide) (by decide)

end RagChat
